import Mathlib

/-!
Verification of the streaming session/approval engine of `bot.py`
(a Telegram bridge to a coding-agent CLI).

Shallow embedding conventions:
- Python `str` is modelled as `List Char`; Python string slicing, `split`,
  `splitlines`, `strip` and `'\n'.join` are modelled by the list helpers
  below (line boundaries are modelled as the `'\n'` character, the only
  terminator produced by the agent's newline-delimited stream).
- Python `dict` tables (the pending-approval table, the session store) are
  modelled as association lists with first-occurrence lookup; `dict.pop`
  and item assignment are `eraseKey` / `setKey`.
- The agent subprocess is modelled by an opaque `Nat` handle; reads from
  its stdout are a list of `Read` items (a chunk of bytes, or a timeout of
  the 300-second bounded wait).
- `json.loads` is modelled by `jsonLoads`, a parser for the JSON subset
  the stream uses (objects, arrays, strings, integers, booleans, null);
  a line that fails to parse is dropped, as in the source.
-/

namespace Clyde

/-- Python `s.split(sep)` for a one-character separator: always returns at
least one (possibly empty) part. -/
def splitOnChar (sep : Char) : List Char → List (List Char)
  | [] => [[]]
  | c :: cs =>
    match splitOnChar sep cs with
    | [] => [[]]
    | l :: ls => if c = sep then [] :: l :: ls else (c :: l) :: ls

/-- Python `s.splitlines()` restricted to `'\n'` boundaries: like
`split('\n')` but without a trailing empty part and with `[] ` for the
empty string. -/
def splitlines (l : List Char) : List (List Char) :=
  let parts := splitOnChar '\n' l
  if parts.getLast? = some [] then parts.dropLast else parts

/-- Python whitespace, as stripped by `str.strip()`. -/
def isPySpace (c : Char) : Bool :=
  c = ' ' ∨ c = '\t' ∨ c = '\n' ∨ c = '\r' ∨ c = '\x0b' ∨ c = '\x0c'

/-- Python `s.strip()`. -/
def pyStrip (l : List Char) : List Char :=
  ((l.dropWhile isPySpace).reverse.dropWhile isPySpace).reverse

/-- Python `'\n'.join(xs)`. -/
def joinNl : List (List Char) → List Char
  | [] => []
  | [x] => x
  | x :: xs => x ++ '\n' :: joinNl xs

/-- Whether `needle` occurs at the start of the second list. -/
def startsWithSeq : List Char → List Char → Bool
  | [], _ => true
  | _ :: _, [] => false
  | a :: as, b :: bs => a = b && startsWithSeq as bs

/-- Whether `needle` occurs contiguously anywhere in the second list
(Python `needle in hay`). -/
def containsSeq (needle : List Char) : List Char → Bool
  | [] => needle.isEmpty
  | c :: rest => startsWithSeq needle (c :: rest) || containsSeq needle rest

/-- Per-character table of Python `html.escape(s)` (with its default
`quote=True`): `&`, `<`, `>`, `"` and `'` are replaced by entities. -/
def escChar (c : Char) : List Char :=
  if c = '&' then "&amp;".toList
  else if c = '<' then "&lt;".toList
  else if c = '>' then "&gt;".toList
  else if c = '"' then "&quot;".toList
  else if c = '\x27' then "&#x27;".toList
  else [c]

/-- Python `html.escape(s)` with `quote=True` (the default used by the
source). -/
def htmlEscape (l : List Char) : List Char :=
  l.flatMap escChar

/-- Source `truncate_message(text, max_length=4000)`: texts within the
bound are returned unchanged, longer ones are cut to `max_length - 20`
characters plus a `"\n\n[Truncated]"` marker.  The slice
`text[:max_length - 20]` is modelled with natural subtraction, which
coincides with Python for `max_length ≥ 20` (the call sites use 4000 and
3900; Python's negative-index slicing below 20 is never exercised). -/
def truncate_message (text : List Char) (max_length : Nat := 4000) : List Char :=
  if text.length ≤ max_length then text
  else text.take (max_length - 20) ++ "\n\n[Truncated]".toList

/-- Source `file_path.split('/')[-1]`, used by the diff renderers and by
`format_tool_use` to display only the file name. -/
def filenameOf (file_path : List Char) : List Char :=
  (splitOnChar '/' file_path).getLastD []

/-- Body of source `format_diff` before truncation: all old lines prefixed
`"- "`, a blank separator when both sides are nonempty, then all new lines
prefixed `"+ "`, joined by newlines. -/
def diff_content_raw (old_string new_string : List Char) : List Char :=
  let old_lines := splitlines old_string
  let new_lines := splitlines new_string
  joinNl
    (old_lines.map (fun l => '-' :: ' ' :: l)
      ++ (if old_lines ≠ [] ∧ new_lines ≠ [] then [[]] else [])
      ++ new_lines.map (fun l => '+' :: ' ' :: l))

/-- The `diff_content` local of source `format_diff` after its
`max_len = 2500` truncation step. -/
def diff_content (old_string new_string : List Char) : List Char :=
  let d := diff_content_raw old_string new_string
  if d.length > 2500 then d.take 2500 ++ "\n\n... (truncated)".toList else d

/-- Source `format_diff(old_string, new_string, file_path)`: a header with
the raw (unescaped) file name, then the escaped diff content inside a
`code` block; identical old/new short-circuits to a "No changes" notice. -/
def format_diff (old_string new_string file_path : List Char) : List Char :=
  if old_string = new_string then
    "<b>📄 ".toList ++ filenameOf file_path ++ "</b>\n\n<i>No changes</i>".toList
  else
    "<b>📄 ".toList ++ filenameOf file_path ++ "</b>\n\n<code>".toList
      ++ htmlEscape (diff_content old_string new_string) ++ "</code>".toList

/-- The `display` local of source `format_new_file`: content cut at 2500
characters with a truncation marker appended when it was longer. -/
def new_file_display (content : List Char) : List Char :=
  if content.length > 2500 then content.take 2500 ++ "\n\n... (truncated)".toList
  else content

/-- Source `format_new_file(content, file_path)`: every display line
prefixed `"+ "`, escaped, under a header with the raw file name. -/
def format_new_file (content file_path : List Char) : List Char :=
  let lines := splitOnChar '\n' (new_file_display content)
  let formatted := joinNl (lines.map (fun l => '+' :: ' ' :: l))
  "<b>📄 ".toList ++ filenameOf file_path ++ "</b> (new file)\n\n<code>".toList
    ++ htmlEscape formatted ++ "</code>".toList

/-! ### Association-list model of Python dicts -/

/-- Python `d.get(k)` / `d[k]`: value at the first occurrence of the key. -/
def lookupKey {α β : Type} [DecidableEq α] : List (α × β) → α → Option β
  | [], _ => none
  | (k, v) :: rest, u => if k = u then some v else lookupKey rest u

/-- Python `d[k] = x`: replace the value at the key, or append a new entry. -/
def setKey {α β : Type} [DecidableEq α] : List (α × β) → α → β → List (α × β)
  | [], u, x => [(u, x)]
  | (k, v) :: rest, u, x => if k = u then (u, x) :: rest else (k, v) :: setKey rest u x

/-- Python `d.pop(k)`'s removal effect: drop the first entry with the key. -/
def eraseKey {α β : Type} [DecidableEq α] : List (α × β) → α → List (α × β)
  | [], _ => []
  | (k, v) :: rest, u => if k = u then rest else (k, v) :: eraseKey rest u

/-! ### Session store (source `Session` dataclass and `SessionManager`) -/

/-- Source `Session` dataclass: conversation identity, working directory,
creation timestamp, and the optional agent resume token. -/
structure Session where
  id : List Char
  cwd : List Char
  created_at : List Char
  resume_id : Option (List Char) := none
deriving DecidableEq

/-- The `SessionManager.sessions` dict: user id → session. -/
abbrev SessionStore := List (Int × Session)

/-- Source `SessionManager.get_or_create(user_id)`; the freshly constructed
session (timestamp id, `DEFAULT_CWD`) is passed in as `fresh`. -/
def SessionManager.get_or_create (st : SessionStore) (user_id : Int) (fresh : Session) :
    Session × SessionStore :=
  match lookupKey st user_id with
  | some s => (s, st)
  | none => (fresh, setKey st user_id fresh)

/-- Source `SessionManager.update(user_id, **kwargs)`: get-or-create, then
set the given attributes (`f`) on the stored session. -/
def SessionManager.update (st : SessionStore) (user_id : Int) (fresh : Session)
    (f : Session → Session) : SessionStore :=
  let p := SessionManager.get_or_create st user_id fresh
  setKey p.2 user_id (f p.1)

/-- Source `SessionManager.reset(user_id, cwd)`: overwrite the user's entry
with a brand-new session (`newSession` is the freshly constructed one). -/
def SessionManager.reset (st : SessionStore) (user_id : Int) (newSession : Session) :
    SessionStore :=
  setKey st user_id newSession

/-! ### JSON values and `json.loads`

The agent stream is newline-delimited JSON. `jsonLoads` models
`json.loads` on the subset the stream uses: objects, arrays, strings with
the simple backslash escapes, integer numbers, `true`/`false`/`null`
(`\uXXXX` escapes and fractional numbers, unused by the stream's records,
are rejected rather than decoded). -/

inductive Json where
  | null
  | bool (b : Bool)
  | num (n : Int)
  | str (s : List Char)
  | arr (items : List Json)
  | obj (fields : List (List Char × Json))

/-- JSON whitespace accepted between tokens by `json.loads`. -/
def isJsonWs (c : Char) : Bool :=
  c = ' ' ∨ c = '\t' ∨ c = '\n' ∨ c = '\r'

def skipWs (l : List Char) : List Char := l.dropWhile isJsonWs

/-- Body of a JSON string after the opening quote: returns the decoded
characters and the input after the closing quote. -/
def parseStringBody : Nat → List Char → Option (List Char × List Char)
  | 0, _ => none
  | _, [] => none
  | fuel + 1, c :: cs =>
    if c = '"' then some ([], cs)
    else if c = '\\' then
      match cs with
      | [] => none
      | e :: cs2 =>
        let dec : Option Char :=
          if e = '"' then some '"'
          else if e = '\\' then some '\\'
          else if e = '/' then some '/'
          else if e = 'b' then some '\x08'
          else if e = 'f' then some '\x0c'
          else if e = 'n' then some '\n'
          else if e = 'r' then some '\r'
          else if e = 't' then some '\t'
          else none
        match dec with
        | some d => (parseStringBody fuel cs2).map (fun p => (d :: p.1, p.2))
        | none => none
    else (parseStringBody fuel cs).map (fun p => (c :: p.1, p.2))

/-- An integer literal (optional minus, one or more digits). -/
def parseNum (l : List Char) : Option (Json × List Char) :=
  match l with
  | '-' :: rest =>
    let ds := rest.takeWhile Char.isDigit
    if ds = [] then none else some (.num (-(Nat.ofDigits 10 (ds.map (fun c => c.toNat - 48)).reverse : Int)), rest.drop ds.length)
  | _ =>
    let ds := l.takeWhile Char.isDigit
    if ds = [] then none else some (.num (Nat.ofDigits 10 (ds.map (fun c => c.toNat - 48)).reverse : Int), l.drop ds.length)

mutual

/-- One JSON value, fuelled; returns the value and the remaining input. -/
def parseVal : Nat → List Char → Option (Json × List Char)
  | 0, _ => none
  | fuel + 1, input =>
    match skipWs input with
    | [] => none
    | c :: cs =>
      if c = '\x7b' then
        match skipWs cs with
        | '\x7d' :: rest => some (.obj [], rest)
        | rest =>
          match parseMembers fuel rest with
          | some (fs, r) => some (.obj fs, r)
          | none => none
      else if c = '[' then
        match skipWs cs with
        | ']' :: rest => some (.arr [], rest)
        | rest =>
          match parseItems fuel rest with
          | some (xs, r) => some (.arr xs, r)
          | none => none
      else if c = '"' then
        match parseStringBody (fuel + 1) cs with
        | some (s, r) => some (.str s, r)
        | none => none
      else if c = 't' then
        if cs.take 3 = "rue".toList then some (.bool true, cs.drop 3) else none
      else if c = 'f' then
        if cs.take 4 = "alse".toList then some (.bool false, cs.drop 4) else none
      else if c = 'n' then
        if cs.take 3 = "ull".toList then some (.null, cs.drop 3) else none
      else parseNum (c :: cs)

/-- Comma-separated array items up to the closing bracket. -/
def parseItems : Nat → List Char → Option (List Json × List Char)
  | 0, _ => none
  | fuel + 1, input =>
    match parseVal fuel input with
    | none => none
    | some (v, rest) =>
      match skipWs rest with
      | ',' :: rest2 =>
        match parseItems fuel rest2 with
        | some (xs, r) => some (v :: xs, r)
        | none => none
      | ']' :: rest2 => some ([v], rest2)
      | _ => none

/-- Comma-separated object members up to the closing brace. -/
def parseMembers : Nat → List Char → Option (List (List Char × Json) × List Char)
  | 0, _ => none
  | fuel + 1, input =>
    match skipWs input with
    | '"' :: cs =>
      match parseStringBody (fuel + 1) cs with
      | none => none
      | some (k, rest) =>
        match skipWs rest with
        | ':' :: rest2 =>
          match parseVal fuel rest2 with
          | none => none
          | some (v, rest3) =>
            match skipWs rest3 with
            | ',' :: rest4 =>
              match parseMembers fuel rest4 with
              | some (fs, r) => some ((k, v) :: fs, r)
              | none => none
            | '\x7d' :: rest4 => some ([(k, v)], rest4)
            | _ => none
        | _ => none
    | _ => none

end

/-- Python `json.loads(s)`: exactly one value, with only whitespace
allowed around it; anything else raises `JSONDecodeError` (`none`). -/
def jsonLoads (l : List Char) : Option Json :=
  match parseVal (l.length + 1) l with
  | some (v, rest) => if skipWs rest = [] then some v else none
  | none => none

/-- Python `data.get(k)` on a decoded record (dict access; non-dict values
have no keys). -/
def Json.get (j : Json) (k : String) : Option Json :=
  match j with
  | .obj fields => lookupKey fields k.toList
  | _ => none

/-- Python `data.get(k, default)`. -/
def Json.getD (j : Json) (k : String) (d : Json) : Json :=
  (j.get k).getD d

/-- Python `data.get(k, default)` where the caller expects a string value:
a missing or non-string value yields the default. -/
def getStrD (j : Json) (k : String) (d : List Char) : List Char :=
  match j.get k with
  | some (.str s) => s
  | _ => d

/-- Python `data.get(k)` for an optional string value (`None` when the key
is absent or not a string). -/
def getStrOpt (j : Json) (k : String) : Option (List Char) :=
  match j.get k with
  | some (.str s) => some s
  | _ => none

/-- Source `data.get("message", {}).get("content", [])`: the content-block
list of an `assistant`/`user` record. -/
def contentBlocks (data : Json) : List Json :=
  match (data.getD "message" (.obj [])).get "content" with
  | some (.arr xs) => xs
  | _ => []

/-- Whether a record or block's `"type"` field is the given string. -/
def typeIs (j : Json) (t : String) : Bool :=
  match j.get "type" with
  | some (.str s) => s = t.toList
  | _ => false

/-! ### Tool-use display (source `format_tool_use`) -/

/-- Source `format_tool_use(tool_name, tool_input)`: one status line per
recognized tool kind. -/
def format_tool_use (tool_name : List Char) (tool_input : Json) : List Char :=
  if tool_name = "Read".toList then
    "Reading: ".toList ++ filenameOf (getStrD tool_input "file_path" "?".toList)
  else if tool_name = "Write".toList then
    "Writing: ".toList ++ filenameOf (getStrD tool_input "file_path" "?".toList)
  else if tool_name = "Edit".toList then
    "Editing: ".toList ++ filenameOf (getStrD tool_input "file_path" "?".toList)
  else if tool_name = "Bash".toList then
    let cmd := getStrD tool_input "command" "?".toList
    let cmd := if cmd.length > 40 then cmd.take 37 ++ "...".toList else cmd
    "Running: ".toList ++ cmd
  else if tool_name = "Glob".toList then
    "Searching: ".toList ++ getStrD tool_input "pattern" "?".toList
  else if tool_name = "Grep".toList then
    "Grep: ".toList ++ getStrD tool_input "pattern" "?".toList
  else if tool_name = "WebSearch".toList then
    "Searching web: ".toList ++ (getStrD tool_input "query" "?".toList).take 30
  else if tool_name = "WebFetch".toList then
    "Fetching: ".toList ++ (getStrD tool_input "url" "?".toList).take 40 ++ "...".toList
  else if tool_name = "Task".toList then
    "Task: ".toList ++ (getStrD tool_input "description" "?".toList).take 30
  else tool_name

/-! ### The turn loop (source `run_claude_streaming`)

The loop reads stdout of the agent subprocess in 4096-byte chunks with a
300-second `asyncio.wait_for` bound, buffers partial lines, decodes each
complete line with `json.loads` (skipping blanks and malformed records),
and dispatches on the record's `type`.  A read is modelled as either a
delivered chunk or a timeout of the bounded wait; the end of the read list
and an empty chunk both mean end-of-stream.  Progress-display side effects
(`update_status`, the heartbeat task, stderr logging) only edit a status
message and are not modelled beyond the `tool_uses` list that feeds them.
The subprocess is an opaque handle; `kill()` is never invoked on any path
of this function's body: the `except asyncio.TimeoutError` handler around
the whole loop, the only call site of `process.kill()` here, is
unreachable because the inner `try` around the read already catches the
timeout and breaks out of the loop. -/

/-- One read from the subprocess's stdout: a chunk of decoded bytes, or a
timeout of the 300-second bounded wait. -/
inductive Read where
  | timeout
  | chunk (data : List Char)

/-- The suspension payload built at an `Edit`/`Write` tool_use (the
`"status": "pending_approval"` dict of the source, minus the status
message handle). -/
structure PendingInfo where
  edit_id : List Char
  tool_name : List Char
  file_path : List Char
  old_string : List Char
  new_string : List Char
  process : Nat
  session_id : Option (List Char)
  cwd : List Char
  user_id : Int
deriving DecidableEq

/-- The three result dicts a turn can produce. -/
inductive TurnOutcome where
  | pending_approval (info : PendingInfo)
  | complete (response : List Char) (session_id : Option (List Char))
  | error (message : List Char)
deriving DecidableEq

/-- Mutable locals of the read loop: the running response text, the
continuation token seen so far, the tool-activity display log, and the
state of the fresh-identifier generator. -/
structure LoopSt where
  full_response : List Char := []
  session_id : Option (List Char) := none
  tool_uses : List (List Char) := []
  gen : Nat := 0
deriving DecidableEq

/-- Models `str(uuid.uuid4())[:8]`: the `n`-th identifier drawn from the
generator (distinct draws give distinct identifiers). -/
def genId (n : Nat) : List Char :=
  "id-".toList ++ Nat.toDigits 10 n

/-- Python `s.startswith("✓")`. -/
def startsWithCheckmark (l : List Char) : Bool :=
  match l with
  | c :: _ => c = '✓'
  | [] => false

/-- Handling of one `assistant` content-block list: a `text` block
replaces the running response; a `tool_use` block is logged for display
and, when its tool is `Edit` or `Write`, suspends the turn with a
`pending_approval` payload (empty old content for `Write`). -/
def processBlocks (cwd : List Char) (user_id : Int) (process : Nat) :
    LoopSt → List Json → LoopSt ⊕ PendingInfo
  | st, [] => .inl st
  | st, b :: bs =>
    if typeIs b "text" then
      processBlocks cwd user_id process { st with full_response := getStrD b "text" [] } bs
    else if typeIs b "tool_use" then
      let tool_name := getStrD b "name" []
      let tool_input := b.getD "input" (.obj [])
      let st := { st with tool_uses := st.tool_uses ++ [format_tool_use tool_name tool_input] }
      if tool_name = "Edit".toList then
        .inr { edit_id := genId st.gen
               tool_name := "Edit".toList
               file_path := getStrD tool_input "file_path" []
               old_string := getStrD tool_input "old_string" []
               new_string := getStrD tool_input "new_string" []
               process := process
               session_id := st.session_id
               cwd := cwd
               user_id := user_id }
      else if tool_name = "Write".toList then
        .inr { edit_id := genId st.gen
               tool_name := "Write".toList
               file_path := getStrD tool_input "file_path" []
               old_string := []
               new_string := getStrD tool_input "content" []
               process := process
               session_id := st.session_id
               cwd := cwd
               user_id := user_id }
      else processBlocks cwd user_id process st bs
    else processBlocks cwd user_id process st bs

/-- Handling of one `user` content-block list: each `tool_result` block
marks the latest displayed tool as done (once). -/
def processToolResults : LoopSt → List Json → LoopSt
  | st, [] => st
  | st, b :: bs =>
    if typeIs b "tool_result" then
      if st.tool_uses ≠ [] ∧ ¬ startsWithCheckmark (st.tool_uses.getLastD []) then
        processToolResults { st with tool_uses := st.tool_uses ++ ["✓ Done".toList] } bs
      else processToolResults st bs
    else processToolResults st bs

/-- Dispatch on one decoded record's `type`, as in the source's event
loop.  `result` overwrites the response and sets the token to the record's
`session_id` field (absent means `None`); `system` updates the token only
when the field is present and logs a loading notice. -/
def processEvent (cwd : List Char) (user_id : Int) (process : Nat)
    (st : LoopSt) (data : Json) : LoopSt ⊕ PendingInfo :=
  if typeIs data "assistant" then
    processBlocks cwd user_id process st (contentBlocks data)
  else if typeIs data "user" then
    .inl (processToolResults st (contentBlocks data))
  else if typeIs data "result" then
    .inl { st with
           full_response := getStrD data "result" st.full_response
           session_id := getStrOpt data "session_id" }
  else if typeIs data "system" then
    .inl { st with
           session_id := match getStrOpt data "session_id" with
                         | some s => some s
                         | none => st.session_id
           tool_uses := st.tool_uses ++ ["📂 Loading context...".toList] }
  else .inl st

/-- The inner per-line loop: strip, skip blanks, `json.loads` (malformed
lines are skipped), then dispatch; an `Edit`/`Write` suspension returns
immediately, abandoning the remaining lines. -/
def processLines (cwd : List Char) (user_id : Int) (process : Nat) :
    LoopSt → List (List Char) → LoopSt ⊕ PendingInfo
  | st, [] => .inl st
  | st, l :: ls =>
    let s := pyStrip l
    if s = [] then processLines cwd user_id process st ls
    else
      match jsonLoads s with
      | none => processLines cwd user_id process st ls
      | some data =>
        match processEvent cwd user_id process st data with
        | .inl st2 => processLines cwd user_id process st2 ls
        | .inr p => .inr p

/-- The chunk-read loop of `run_claude_streaming`: a timeout of the
bounded read breaks out of the loop (the source's inner
`except asyncio.TimeoutError: break`), an empty chunk breaks (EOF), and
otherwise the chunk is appended to the carry buffer and all complete
lines are processed. -/
def runReads (cwd : List Char) (user_id : Int) (process : Nat) :
    LoopSt → List Char → List Read → LoopSt ⊕ PendingInfo
  | st, _, [] => .inl st
  | st, _, .timeout :: _ => .inl st
  | st, buf, .chunk c :: rest =>
    if c = [] then .inl st
    else
      let parts := splitOnChar '\n' (buf ++ c)
      match processLines cwd user_id process st parts.dropLast with
      | .inl st2 => runReads cwd user_id process st2 (parts.getLastD []) rest
      | .inr p => .inr p

/-- Source `run_claude_streaming` after process spawn: drive the read
loop; if no suspension occurred, wait for the process and produce
`complete`, or `error` with a truncated stderr excerpt on a non-zero exit
status.  No path of this body kills the process (see the section
comment). -/
def run_claude_streaming (cwd : List Char) (user_id : Int) (process : Nat)
    (reads : List Read) (returncode : Int) (stderr : List Char) : TurnOutcome :=
  match runReads cwd user_id process {} [] reads with
  | .inr p => .pending_approval p
  | .inl st =>
    if returncode ≠ 0 then
      let error_msg := if stderr = [] then "Unknown error".toList else pyStrip stderr
      .error ("Error: ".toList ++ error_msg.take 500)
    else .complete st.full_response st.session_id

/-! ### Line extraction, main loop vs. resumption loop (for chunking
invariance)

The main loop carries a partial-line buffer across reads.  The resumption
loop of `continue_after_approval` instead splits each chunk on `'\n'`
independently (`for line in chunk.decode().split('\n')`), so a record
split across two chunks is seen as two fragments, each of which fails
`json.loads` and is silently dropped. -/

/-- Complete lines yielded by the main loop's buffered reader over a
chunk sequence (the unterminated tail is discarded at end of stream, as
in the source, and an empty chunk means EOF). -/
def mainLines : List Char → List (List Char) → List (List Char)
  | _, [] => []
  | buf, c :: cs =>
    if c = [] then []
    else
      let parts := splitOnChar '\n' (buf ++ c)
      parts.dropLast ++ mainLines (parts.getLastD []) cs

/-- Lines seen by the resumption loop of `continue_after_approval`: each
chunk is split on `'\n'` by itself, with no carry buffer. -/
def contLines : List (List Char) → List (List Char)
  | [] => []
  | c :: cs => if c = [] then [] else splitOnChar '\n' c ++ contLines cs

/-- Records decoded by the main loop from a chunk sequence (strip, skip
blank, drop malformed). -/
def mainRecords (chunks : List (List Char)) : List Json :=
  (mainLines [] chunks).filterMap fun l =>
    let s := pyStrip l
    if s = [] then none else jsonLoads s

/-- Records decoded by the resumption loop from a chunk sequence (skip
lines that are blank after stripping, decode the raw line, drop
malformed). -/
def contRecords (chunks : List (List Char)) : List Json :=
  (contLines chunks).filterMap fun l =>
    if pyStrip l = [] then none else jsonLoads l

/-- Projection of a decoded record used to compare record sequences
without needing decidable equality of full JSON values: its `type` field
and its `result` field. -/
def recSummary (j : Json) : List Char × List Char :=
  (getStrD j "type" "?".toList, getStrD j "result" "?".toList)

/-! ### Approval callback (source `handle_edit_callback`,
`handle_approve`, `handle_reject`)

`handle_edit_callback` answers the button callback: a missing identifier
reports expiry; otherwise the entry is popped, a wrong requester puts it
back and is told to stand down, and the originator's decision either
resumes the stream (approve) or kills the process (reject).  The state a
decision can touch is gathered in `BotState`: the pending table, the
session store, and the lists of killed and resumed process handles. -/

/-- Source `PendingEdit` dataclass (the pending-table entry). -/
structure PendingEdit where
  edit_id : List Char
  chat_id : Int
  message_id : Int
  user_id : Int
  tool_name : List Char
  file_path : List Char
  old_string : List Char
  new_string : List Char
  process : Nat
  session_id : Option (List Char)
  cwd : List Char
  created_at : Nat := 0
deriving DecidableEq

/-- The shared mutable state a callback decision can touch. -/
structure BotState where
  pending : List (List Char × PendingEdit)
  sessions : SessionStore
  killed : List Nat := []
  continued : List Nat := []
deriving DecidableEq

/-- The decision carried by the callback payload
(`"approve_<id>"` / `"reject_<id>"`). -/
inductive Decision where
  | approve
  | reject
deriving DecidableEq

/-- What the callback handler signalled back to the requester. -/
inductive CallbackOutcome where
  | expired
  | unauthorized
  | approvedPending (info : PendingInfo)
  | approvedComplete (response : List Char) (session_id : Option (List Char))
  | approvedError (message : List Char)
  | rejected
deriving DecidableEq

/-- Rebuild a table entry from a resumption's `pending_approval` payload,
as `handle_approve` does after `show_approval_request`: the source takes
the chat, the originating user and the working directory from the entry
being resumed (`prev`), the message id from the newly sent approval
message, and everything else from the payload. -/
def PendingInfo.toPendingEdit (info : PendingInfo) (prev : PendingEdit)
    (message_id : Int) : PendingEdit :=
  { edit_id := info.edit_id
    chat_id := prev.chat_id
    message_id := message_id
    user_id := prev.user_id
    tool_name := info.tool_name
    file_path := info.file_path
    old_string := info.old_string
    new_string := info.new_string
    process := info.process
    session_id := info.session_id
    cwd := prev.cwd }

/-- Source `handle_edit_callback` together with `handle_approve` /
`handle_reject`.  `cont` is `continue_after_approval` (resuming the same
process handle's stream), `freshSession` the session `get_or_create`
would build, and `newMsgId` the message id a re-rendered approval request
would get. -/
def handle_edit_callback (st : BotState) (cont : PendingEdit → TurnOutcome)
    (freshSession : Session) (newMsgId : Int)
    (decision : Decision) (edit_id : List Char) (fromUser : Int) :
    BotState × CallbackOutcome :=
  match lookupKey st.pending edit_id with
  | none => (st, .expired)
  | some pending =>
    let popped := eraseKey st.pending edit_id
    if fromUser ≠ pending.user_id then
      ({ st with pending := setKey popped edit_id pending }, .unauthorized)
    else
      match decision with
      | .reject =>
        ({ st with pending := popped, killed := st.killed ++ [pending.process] }, .rejected)
      | .approve =>
        let st1 : BotState := { st with pending := popped, continued := st.continued ++ [pending.process] }
        match cont pending with
        | .pending_approval info =>
          ({ st1 with pending := setKey st1.pending info.edit_id (info.toPendingEdit pending newMsgId) },
           .approvedPending info)
        | .complete response sid =>
          let st2 : BotState :=
            match sid with
            | some s =>
              { st1 with sessions :=
                  (SessionManager.update st1.sessions pending.user_id freshSession
                    (fun sess => { sess with resume_id := some s })) }
            | none => st1
          (st2, .approvedComplete response sid)
        | .error m => (st1, .approvedError m)

/-- A sequence of callback resolutions, folded over the state (each item:
decision, approval identifier, requesting user). -/
def resolveMany (cont : PendingEdit → TurnOutcome) (freshSession : Session) (newMsgId : Int) :
    BotState → List (Decision × List Char × Int) → BotState
  | st, [] => st
  | st, (d, id, u) :: ops =>
    resolveMany cont freshSession newMsgId (handle_edit_callback st cont freshSession newMsgId d id u).1 ops

/-! ### Concrete instances used by example theorems and witnesses -/

/-- A 2600-character single-line old content, longer than the renderer's
2500-character budget. -/
def bigOld : List Char := List.replicate 2600 'x'

/-- A stored session with identity "A". -/
def sessA : Session :=
  { id := "A".toList, cwd := "/home".toList, created_at := "t0".toList }

/-- A freshly created session with identity "B" (as built by `reset`). -/
def sessB : Session :=
  { id := "B".toList, cwd := "/home".toList, created_at := "t1".toList }

/-- The spec's example stream: a `system` record carrying continuation
token "s1", then an `assistant` record with an `Edit` tool_use on path
"/a", delivered as one chunk. -/
def exChunk : List Char :=
  ("\x7b\"type\": \"system\", \"session_id\": \"s1\"\x7d\n"
    ++ "\x7b\"type\": \"assistant\", \"message\": \x7b\"content\": "
    ++ "[\x7b\"type\": \"tool_use\", \"name\": \"Edit\", \"input\": "
    ++ "\x7b\"file_path\": \"/a\"\x7d\x7d]\x7d\x7d\n").toList

/-- The suspension payload the turn loop builds for `exChunk` (process
handle 3, user 7, working directory "/w"). -/
def pendEx : PendingInfo :=
  { edit_id := genId 0
    tool_name := "Edit".toList
    file_path := "/a".toList
    old_string := []
    new_string := []
    process := 3
    session_id := some "s1".toList
    cwd := "/w".toList
    user_id := 7 }

/-- First fragment of a `result` record split across two reads. -/
def fragA : List Char := "\x7b\"type\": \"res".toList

/-- Second fragment of the same `result` record, with its newline. -/
def fragB : List Char := "ult\", \"result\": \"hi\"\x7d\n".toList

/-- A pending approval owned by user 111 (process handle 5). -/
def pendingEx : PendingEdit :=
  { edit_id := "e1".toList, chat_id := 10, message_id := 20, user_id := 111
    tool_name := "Edit".toList, file_path := "/m.py".toList
    old_string := "a".toList, new_string := "b".toList
    process := 5, session_id := some "s".toList, cwd := "/w".toList }

/-- A second pending approval owned by user 222 (process handle 6). -/
def pendingEx2 : PendingEdit :=
  { edit_id := "e2".toList, chat_id := 11, message_id := 21, user_id := 222
    tool_name := "Write".toList, file_path := "/n.py".toList
    old_string := [], new_string := "c".toList
    process := 6, session_id := none, cwd := "/w".toList }

/-- A bot state with two outstanding approvals and one stored session. -/
def botStEx : BotState :=
  { pending := [("e1".toList, pendingEx), ("e2".toList, pendingEx2)]
    sessions := [((111 : Int), sessA)] }

/-- A resumption behaviour that fails (used where any concrete
continuation will do). -/
def contEx : PendingEdit → TurnOutcome := fun _ => .error "x".toList

/-! ## Theorems

Helper lemmas first, then one theorem per claim (with witness or
counterexample theorems where required). -/

theorem splitOnChar_eq_single {sep : Char} {l : List Char} (h : sep ∉ l) :
    splitOnChar sep l = [l] := by
  induction l with
  | nil => rfl
  | cons c cs ih =>
    have hc : c ≠ sep := fun hc => h (hc ▸ List.mem_cons_self c cs)
    have hcs : sep ∉ cs := fun hm => h (List.mem_cons_of_mem c hm)
    simp only [splitOnChar, ih hcs]
    simp [hc]

theorem lookupKey_setKey_self {α β : Type} [DecidableEq α] (t : List (α × β)) (k : α) (v : β) :
    lookupKey (setKey t k v) k = some v := by
  induction t with
  | nil => simp [setKey, lookupKey]
  | cons a rest ih =>
    obtain ⟨ka, va⟩ := a
    by_cases h : ka = k
    · subst h
      simp [setKey, lookupKey]
    · simp [setKey, lookupKey, h, ih]

theorem lookupKey_setKey_ne {α β : Type} [DecidableEq α] (t : List (α × β)) (k k' : α) (v : β)
    (h : k' ≠ k) : lookupKey (setKey t k v) k' = lookupKey t k' := by
  have h' : ¬ k = k' := fun hh => h hh.symm
  induction t with
  | nil => simp [setKey, lookupKey, h']
  | cons a rest ih =>
    obtain ⟨ka, va⟩ := a
    by_cases hk : ka = k
    · subst hk
      simp [setKey, lookupKey, h']
    · simp [setKey, lookupKey, hk, ih]

theorem lookupKey_eraseKey_ne {α β : Type} [DecidableEq α] (t : List (α × β)) (k k' : α)
    (h : k' ≠ k) : lookupKey (eraseKey t k) k' = lookupKey t k' := by
  have h' : ¬ k = k' := fun hh => h hh.symm
  induction t with
  | nil => rfl
  | cons a rest ih =>
    obtain ⟨ka, va⟩ := a
    by_cases hk : ka = k
    · subst hk
      simp [eraseKey, lookupKey, h']
    · simp [eraseKey, lookupKey, hk, ih]

theorem lookupKey_eq_none_of_not_mem {α β : Type} [DecidableEq α] (t : List (α × β)) (k : α)
    (h : k ∉ t.map Prod.fst) : lookupKey t k = none := by
  induction t with
  | nil => rfl
  | cons a rest ih =>
    obtain ⟨ka, va⟩ := a
    simp only [List.map_cons, List.mem_cons] at h
    push_neg at h
    have h1 : ¬ ka = k := fun hh => h.1 hh.symm
    simp [lookupKey, h1, ih h.2]

theorem lookupKey_eraseKey_self {α β : Type} [DecidableEq α] (t : List (α × β)) (k : α)
    (h : (t.map Prod.fst).Nodup) : lookupKey (eraseKey t k) k = none := by
  induction t with
  | nil => rfl
  | cons a rest ih =>
    obtain ⟨ka, va⟩ := a
    simp only [List.map_cons, List.nodup_cons] at h
    by_cases hk : ka = k
    · subst hk
      simp only [eraseKey, if_pos rfl]
      exact lookupKey_eq_none_of_not_mem rest ka h.1
    · simp [eraseKey, lookupKey, hk, ih h.2]

theorem lt_not_mem_escChar (c : Char) : '<' ∉ escChar c := by
  intro hmem
  unfold escChar at hmem
  split_ifs at hmem with h1 h2 h3 h4 h5
  · exact absurd hmem (by decide)
  · exact absurd hmem (by decide)
  · exact absurd hmem (by decide)
  · exact absurd hmem (by decide)
  · exact absurd hmem (by decide)
  · rw [List.mem_singleton] at hmem
    exact h2 hmem.symm

theorem gt_not_mem_escChar (c : Char) : '>' ∉ escChar c := by
  intro hmem
  unfold escChar at hmem
  split_ifs at hmem with h1 h2 h3 h4 h5
  · exact absurd hmem (by decide)
  · exact absurd hmem (by decide)
  · exact absurd hmem (by decide)
  · exact absurd hmem (by decide)
  · exact absurd hmem (by decide)
  · rw [List.mem_singleton] at hmem
    exact h3 hmem.symm

theorem lt_not_mem_htmlEscape (l : List Char) : '<' ∉ htmlEscape l := by
  intro hmem
  rw [htmlEscape, List.mem_flatMap] at hmem
  obtain ⟨c, _, hc⟩ := hmem
  exact lt_not_mem_escChar c hc

theorem gt_not_mem_htmlEscape (l : List Char) : '>' ∉ htmlEscape l := by
  intro hmem
  rw [htmlEscape, List.mem_flatMap] at hmem
  obtain ⟨c, _, hc⟩ := hmem
  exact gt_not_mem_escChar c hc

/-- Claim C10: for every string and every `max_length` of at least 20,
`truncate_message` returns at most `max_length` characters, and returns
the input unchanged whenever it already fits (the source's default bound
is 4000, by the definition's default argument). -/
theorem claim10_truncate_message_bound (text : List Char) (max_length : Nat)
    (h : 20 ≤ max_length) :
    (truncate_message text max_length).length ≤ max_length ∧
    (text.length ≤ max_length → truncate_message text max_length = text) := by
  constructor
  · unfold truncate_message
    split
    · omega
    · have hlen : ("\n\n[Truncated]".toList).length = 13 := by decide
      rw [List.length_append, List.length_take, hlen]
      omega
  · intro h2
    simp [truncate_message, h2]

/-- Witness for C10 at a 100-character input and bound 50. -/
theorem claim10_truncate_message_bound_witness :
    (truncate_message (List.replicate 100 'a') 50).length ≤ 50 ∧
    ((List.replicate 100 'a').length ≤ 50 →
      truncate_message (List.replicate 100 'a') 50 = List.replicate 100 'a') :=
  claim10_truncate_message_bound (List.replicate 100 'a') 50 (by decide)

/-- Claim C7, amended: the session store keeps exactly one session per
user; `reset` replaces the user's previous session with the freshly
created one (destroying the previous session rather than retaining it as
an inactive session), and leaves every other user's entry unchanged. -/
theorem claim7_single_session_reset_replaces (st : SessionStore) (u : Int) (s : Session)
    (v : Int) :
    lookupKey (SessionManager.reset st u s) v = if v = u then some s else lookupKey st v := by
  by_cases h : v = u
  · subst h
    simp [SessionManager.reset, lookupKey_setKey_self]
  · simp [SessionManager.reset, lookupKey_setKey_ne st u v s h, h]

/-- Counterexample for C7 as stated: user 1 holds session "A"; after
`reset` installs session "B", no entry with identity "A" remains anywhere
in the store — the previous session is destroyed, not kept for
switching. -/
theorem claim7_reset_destroys_previous_session :
    lookupKey [((1 : Int), sessA)] 1 = some sessA ∧
    (SessionManager.reset [((1 : Int), sessA)] 1 sessB).all
      (fun e => !(e.2.id == "A".toList)) = true := by decide

/-- Claim C8, amended: both renderers pass their entire removed/added
content through `html.escape`, so markup-significant angle brackets in
old/new content never appear unescaped in the content section; the file
name derived from the file path, however, is interpolated unescaped into
the header line of both renderers. -/
theorem claim8_content_escaped_filename_raw (s old new content path : List Char) :
    ('<' ∉ htmlEscape s ∧ '>' ∉ htmlEscape s) ∧
    format_diff old new path =
      (if old = new then
        "<b>📄 ".toList ++ filenameOf path ++ "</b>\n\n<i>No changes</i>".toList
      else
        "<b>📄 ".toList ++ filenameOf path ++ "</b>\n\n<code>".toList
          ++ htmlEscape (diff_content old new) ++ "</code>".toList) ∧
    format_new_file content path =
      "<b>📄 ".toList ++ filenameOf path ++ "</b> (new file)\n\n<code>".toList
        ++ htmlEscape
            (joinNl ((splitOnChar '\n' (new_file_display content)).map (fun l => '+' :: ' ' :: l)))
        ++ "</code>".toList :=
  ⟨⟨lt_not_mem_htmlEscape s, gt_not_mem_htmlEscape s⟩, rfl, rfl⟩

/-- Counterexample for C8 as stated: for the tool invocation with file
path "/tmp/a<b.txt", the rendered approval page contains the raw sequence
"a<b.txt" in its header — the angle bracket from the path content appears
unescaped (the escaped form "a&lt;b.txt" does not occur). -/
theorem claim8_filename_unescaped_in_header :
    containsSeq ("📄 a<b.txt".toList)
      (format_diff "x".toList "y".toList "/tmp/a<b.txt".toList) = true ∧
    containsSeq ("a&lt;b.txt".toList)
      (format_diff "x".toList "y".toList "/tmp/a<b.txt".toList) = false := by decide

/-- Claim C2, failing input evaluated: for a 2600-character old content
and a one-line new content, the full removed-then-added rendering has
2607 characters, but the rendered diff content is cut to 2500 characters
plus a 17-character "... (truncated)" marker — 2517 characters in total —
so the page content is not the full rendering: content is silently
dropped instead of being split across further pages. -/
theorem claim2_diff_truncation_drops_content :
    (diff_content_raw bigOld "y".toList).length = 2607 ∧
    (diff_content bigOld "y".toList).length = 2517 ∧
    diff_content bigOld "y".toList ≠ diff_content_raw bigOld "y".toList := by
  have hy : "y".toList = ['y'] := rfl
  have hnl : '\n' ∉ bigOld := by
    rw [bigOld]
    intro hm
    rw [List.mem_replicate] at hm
    exact absurd hm.2 (by decide)
  have hne : bigOld ≠ [] := by
    rw [bigOld]
    intro hnil
    have hlen := congrArg List.length hnil
    rw [List.length_replicate] at hlen
    exact absurd hlen (by norm_num)
  have hsplit : splitlines bigOld = [bigOld] := by
    unfold splitlines
    rw [splitOnChar_eq_single hnl]
    simp [hne]
  have hsy : splitlines ['y'] = [['y']] := by decide
  have hraw : diff_content_raw bigOld "y".toList
      = ('-' :: ' ' :: bigOld) ++ '\n' :: '\n' :: '+' :: ' ' :: ['y'] := by
    rw [hy]
    simp only [diff_content_raw]
    rw [hsplit, hsy]
    simp only [List.map_cons, List.map_nil]
    rw [if_pos ⟨List.cons_ne_nil _ _, List.cons_ne_nil _ _⟩]
    rfl
  have hrawlen : (diff_content_raw bigOld "y".toList).length = 2607 := by
    rw [hraw]
    simp only [bigOld, List.length_append, List.length_cons, List.length_replicate]
    norm_num
  have htrunc : (diff_content bigOld "y".toList).length = 2517 := by
    simp only [diff_content]
    rw [hrawlen]
    rw [if_pos (by norm_num)]
    rw [List.length_append, List.length_take, hrawlen]
    decide
  refine ⟨hrawlen, htrunc, fun heq => ?_⟩
  have hlen := congrArg List.length heq
  rw [htrunc, hrawlen] at hlen
  exact absurd hlen (by norm_num)

/-- Claim C5: a decision by any user other than the originator signals
Unauthorized, restores the popped entry (every identifier afterwards maps
to exactly what it mapped to before), and performs no approve/reject side
effects: the session store, the kill list and the resume list are
untouched. -/
theorem claim5_unauthorized_restores_entry (st : BotState) (cont : PendingEdit → TurnOutcome)
    (freshSession : Session) (newMsgId : Int) (d : Decision) (id : List Char)
    (p : PendingEdit) (u : Int)
    (hl : lookupKey st.pending id = some p) (hu : u ≠ p.user_id) :
    (handle_edit_callback st cont freshSession newMsgId d id u).2 = .unauthorized ∧
    (∀ k, lookupKey (handle_edit_callback st cont freshSession newMsgId d id u).1.pending k
        = lookupKey st.pending k) ∧
    (handle_edit_callback st cont freshSession newMsgId d id u).1.sessions = st.sessions ∧
    (handle_edit_callback st cont freshSession newMsgId d id u).1.killed = st.killed ∧
    (handle_edit_callback st cont freshSession newMsgId d id u).1.continued = st.continued := by
  have hstep : handle_edit_callback st cont freshSession newMsgId d id u
      = ({ st with pending := setKey (eraseKey st.pending id) id p }, .unauthorized) := by
    simp [handle_edit_callback, hl, hu]
  rw [hstep]
  refine ⟨rfl, ?_, rfl, rfl, rfl⟩
  intro k
  by_cases hk : k = id
  · subst hk
    show lookupKey (setKey (eraseKey st.pending k) k p) k = lookupKey st.pending k
    rw [lookupKey_setKey_self, hl]
  · show lookupKey (setKey (eraseKey st.pending id) id p) k = lookupKey st.pending k
    rw [lookupKey_setKey_ne _ _ _ _ hk, lookupKey_eraseKey_ne _ _ _ hk]

/-- Witness for C5: user 999 tries to resolve approval "e1" owned by
user 111; the call signals Unauthorized and changes nothing. -/
theorem claim5_unauthorized_restores_entry_witness :
    (handle_edit_callback botStEx contEx sessB 30 .approve ("e1".toList) 999).2
      = .unauthorized ∧
    (∀ k, lookupKey (handle_edit_callback botStEx contEx sessB 30 .approve ("e1".toList) 999).1.pending k
        = lookupKey botStEx.pending k) ∧
    (handle_edit_callback botStEx contEx sessB 30 .approve ("e1".toList) 999).1.sessions
      = botStEx.sessions ∧
    (handle_edit_callback botStEx contEx sessB 30 .approve ("e1".toList) 999).1.killed
      = botStEx.killed ∧
    (handle_edit_callback botStEx contEx sessB 30 .approve ("e1".toList) 999).1.continued
      = botStEx.continued :=
  claim5_unauthorized_restores_entry botStEx contEx sessB 30 .approve ("e1".toList)
    pendingEx 999 (by decide) (by decide)

/-- Claim C9: processing a reject decision leaves the session store
exactly as it was (no session field is written); only the table entry is
removed and the subprocess killed. -/
theorem claim9_reject_preserves_sessions (st : BotState) (cont : PendingEdit → TurnOutcome)
    (freshSession : Session) (newMsgId : Int) (id : List Char) (p : PendingEdit)
    (hl : lookupKey st.pending id = some p) :
    (handle_edit_callback st cont freshSession newMsgId .reject id p.user_id).1.sessions
        = st.sessions ∧
    (handle_edit_callback st cont freshSession newMsgId .reject id p.user_id).2 = .rejected ∧
    (handle_edit_callback st cont freshSession newMsgId .reject id p.user_id).1.pending
        = eraseKey st.pending id ∧
    (handle_edit_callback st cont freshSession newMsgId .reject id p.user_id).1.killed
        = st.killed ++ [p.process] ∧
    (handle_edit_callback st cont freshSession newMsgId .reject id p.user_id).1.continued
        = st.continued := by
  have hstep : handle_edit_callback st cont freshSession newMsgId .reject id p.user_id
      = ({ st with pending := eraseKey st.pending id, killed := st.killed ++ [p.process] },
         .rejected) := by
    simp [handle_edit_callback, hl]
  rw [hstep]
  exact ⟨rfl, rfl, rfl, rfl, rfl⟩

/-- Witness for C9: user 111 rejects approval "e1"; the session store is
untouched, the entry is removed, process 5 is killed. -/
theorem claim9_reject_preserves_sessions_witness :
    (handle_edit_callback botStEx contEx sessB 30 .reject ("e1".toList) 111).1.sessions
        = botStEx.sessions ∧
    (handle_edit_callback botStEx contEx sessB 30 .reject ("e1".toList) 111).2 = .rejected ∧
    (handle_edit_callback botStEx contEx sessB 30 .reject ("e1".toList) 111).1.pending
        = eraseKey botStEx.pending ("e1".toList) ∧
    (handle_edit_callback botStEx contEx sessB 30 .reject ("e1".toList) 111).1.killed
        = botStEx.killed ++ [pendingEx.process] ∧
    (handle_edit_callback botStEx contEx sessB 30 .reject ("e1".toList) 111).1.continued
        = botStEx.continued :=
  claim9_reject_preserves_sessions botStEx contEx sessB 30 ("e1".toList) pendingEx (by decide)

theorem handle_preserves_absent (st : BotState) (cont : PendingEdit → TurnOutcome)
    (freshSession : Session) (newMsgId : Int) (d : Decision) (id' : List Char) (u : Int)
    (id : List Char) (hne : id' ≠ id)
    (hcont : ∀ q info, cont q = .pending_approval info → info.edit_id ≠ id)
    (h : lookupKey st.pending id = none) :
    lookupKey (handle_edit_callback st cont freshSession newMsgId d id' u).1.pending id
      = none := by
  have hid : id ≠ id' := fun hh => hne hh.symm
  cases hl : lookupKey st.pending id' with
  | none =>
    simp only [handle_edit_callback, hl]
    exact h
  | some pending =>
    have hpop : lookupKey (eraseKey st.pending id') id = none := by
      rw [lookupKey_eraseKey_ne _ _ _ hid]
      exact h
    simp only [handle_edit_callback, hl]
    by_cases huser : u ≠ pending.user_id
    · rw [if_pos huser]
      show lookupKey (setKey (eraseKey st.pending id') id' pending) id = none
      rw [lookupKey_setKey_ne _ _ _ _ hid]
      exact hpop
    · rw [if_neg huser]
      cases d with
      | reject => exact hpop
      | approve =>
        cases hc : cont pending with
        | pending_approval info =>
          simp only
          have hfresh : id ≠ info.edit_id := fun hh => (hcont pending info hc) hh.symm
          show lookupKey
              (setKey (eraseKey st.pending id') info.edit_id
                (info.toPendingEdit pending newMsgId)) id = none
          rw [lookupKey_setKey_ne _ _ _ _ hfresh]
          exact hpop
        | complete response sid =>
          cases sid with
          | none => exact hpop
          | some s => exact hpop
        | error m => exact hpop

theorem resolveMany_preserves_absent (cont : PendingEdit → TurnOutcome)
    (freshSession : Session) (newMsgId : Int) (ops : List (Decision × List Char × Int)) :
    ∀ (st : BotState) (id : List Char),
      (∀ op ∈ ops, op.2.1 ≠ id) →
      (∀ q info, cont q = .pending_approval info → info.edit_id ≠ id) →
      lookupKey st.pending id = none →
      lookupKey (resolveMany cont freshSession newMsgId st ops).pending id = none := by
  induction ops with
  | nil =>
    intro st id _ _ h
    exact h
  | cons op rest ih =>
    intro st id hops hcont h
    obtain ⟨d, id', u⟩ := op
    simp only [resolveMany]
    apply ih _ id (fun o ho => hops o (List.mem_cons_of_mem _ ho)) hcont
    exact handle_preserves_absent st cont freshSession newMsgId d id' u id
      (hops (d, id', u) (List.mem_cons_self _ _)) hcont h

theorem handle_absent_expired (st : BotState) (cont : PendingEdit → TurnOutcome)
    (freshSession : Session) (newMsgId : Int) (d : Decision) (id : List Char) (u : Int)
    (h : lookupKey st.pending id = none) :
    handle_edit_callback st cont freshSession newMsgId d id u = (st, .expired) := by
  simp [handle_edit_callback, h]

/-- Claim C4: with distinct identifiers in the table (a dict invariant)
and fresh identifiers for re-suspensions (uuid freshness), resolving a
present approval identifier by its originator succeeds — it is neither
Expired nor Unauthorized, and the entry is removed — and any later
resolution of the same identifier reports Expired, no matter which
resolutions of other identifiers are interleaved in between. -/
theorem claim4_resolve_once_then_expired (st : BotState) (cont : PendingEdit → TurnOutcome)
    (freshSession : Session) (newMsgId : Int) (d d' : Decision) (id : List Char)
    (p : PendingEdit) (u' : Int) (ops : List (Decision × List Char × Int))
    (hnd : (st.pending.map Prod.fst).Nodup)
    (hl : lookupKey st.pending id = some p)
    (hcont : ∀ q info, cont q = .pending_approval info → info.edit_id ≠ id)
    (hops : ∀ op ∈ ops, op.2.1 ≠ id) :
    ((handle_edit_callback st cont freshSession newMsgId d id p.user_id).2 ≠ .expired ∧
     (handle_edit_callback st cont freshSession newMsgId d id p.user_id).2 ≠ .unauthorized) ∧
    lookupKey (handle_edit_callback st cont freshSession newMsgId d id p.user_id).1.pending id
      = none ∧
    (handle_edit_callback
        (resolveMany cont freshSession newMsgId
          (handle_edit_callback st cont freshSession newMsgId d id p.user_id).1 ops)
        cont freshSession newMsgId d' id u').2 = .expired := by
  have herase : lookupKey (eraseKey st.pending id) id = none :=
    lookupKey_eraseKey_self _ _ hnd
  have hmain :
      ((handle_edit_callback st cont freshSession newMsgId d id p.user_id).2 ≠ .expired ∧
       (handle_edit_callback st cont freshSession newMsgId d id p.user_id).2 ≠ .unauthorized) ∧
      lookupKey (handle_edit_callback st cont freshSession newMsgId d id p.user_id).1.pending id
        = none := by
    simp only [handle_edit_callback, hl]
    rw [if_neg (by simp)]
    cases d with
    | reject =>
      refine ⟨⟨by simp, by simp⟩, ?_⟩
      exact herase
    | approve =>
      cases hc : cont p with
      | pending_approval info =>
        refine ⟨⟨by simp, by simp⟩, ?_⟩
        have hfresh : id ≠ info.edit_id := fun hh => (hcont p info hc) hh.symm
        show lookupKey
            (setKey (eraseKey st.pending id) info.edit_id
              (info.toPendingEdit p newMsgId)) id = none
        rw [lookupKey_setKey_ne _ _ _ _ hfresh]
        exact herase
      | complete response sid =>
        cases sid with
        | none => exact ⟨⟨by simp, by simp⟩, herase⟩
        | some s => exact ⟨⟨by simp, by simp⟩, herase⟩
      | error m =>
        exact ⟨⟨by simp, by simp⟩, herase⟩
  refine ⟨hmain.1, hmain.2, ?_⟩
  have habs := resolveMany_preserves_absent cont freshSession newMsgId ops
    (handle_edit_callback st cont freshSession newMsgId d id p.user_id).1 id hops hcont hmain.2
  rw [handle_absent_expired _ _ _ _ _ _ _ habs]

/-- Witness for C4: in the two-entry table, user 111 rejects "e1"; then
a resolution of "e2" by a stranger happens in between; the repeated
resolution of "e1" reports Expired. -/
theorem claim4_resolve_once_then_expired_witness :
    ((handle_edit_callback botStEx contEx sessB 30 .reject ("e1".toList) 111).2 ≠ .expired ∧
     (handle_edit_callback botStEx contEx sessB 30 .reject ("e1".toList) 111).2
        ≠ .unauthorized) ∧
    lookupKey
        (handle_edit_callback botStEx contEx sessB 30 .reject ("e1".toList) 111).1.pending
        ("e1".toList) = none ∧
    (handle_edit_callback
        (resolveMany contEx sessB 30
          (handle_edit_callback botStEx contEx sessB 30 .reject ("e1".toList) 111).1
          [(.approve, "e2".toList, 999)])
        contEx sessB 30 .approve ("e1".toList) 111).2 = .expired :=
  claim4_resolve_once_then_expired botStEx contEx sessB 30 .reject .approve ("e1".toList)
    pendingEx 111 [(.approve, "e2".toList, 999)] (by decide) (by decide)
    (by intro q info h; simp [contEx] at h) (by decide)

/-- Claim C3, failing behaviour evaluated: a turn whose only read times
out after the 300-second bound does not resolve to a timeout Error and
the process is not killed — the inner handler breaks out of the loop and
the turn resolves from the process's exit status: Complete for exit 0,
and a stderr-excerpt Error (not a timeout message) otherwise.  The
source's handler that would kill the process and report a timeout is
unreachable dead code. -/
theorem claim3_read_timeout_returns_complete :
    run_claude_streaming ("/w".toList) 7 3 [Read.timeout] 0 [] = .complete [] none ∧
    run_claude_streaming ("/w".toList) 7 3 [Read.timeout] 2 ("boom".toList)
      = .error ("Error: boom".toList) := by decide

/-- Claim C6, failing input evaluated: for the record
`\x7b"type": "result", "result": "hi"\x7d` delivered either whole or
split mid-record across two reads, the main turn loop's buffered parsing
decodes the same single record either way, but the resumption loop of
`continue_after_approval` decodes the record only when it arrives whole:
split across two chunks it yields no event at all — the two fragments
are each dropped as malformed. -/
theorem claim6_resume_parsing_chunking_dependent :
    (mainRecords [fragA, fragB]).map recSummary = [("result".toList, "hi".toList)] ∧
    (mainRecords [fragA ++ fragB]).map recSummary = [("result".toList, "hi".toList)] ∧
    (contRecords [fragA ++ fragB]).map recSummary = [("result".toList, "hi".toList)] ∧
    (contRecords [fragA, fragB]).length = 0 := by decide

set_option maxRecDepth 40000 in
/-- Claim C1: whenever the read loop suspends with a pending-approval
payload, appending any further reads to the stream leaves the result
unchanged — the loop stops consuming further output; and on the spec's
example stream (a `system` record with token "s1", then an `assistant`
`Edit` tool_use on "/a") the turn returns PendingApproval carrying the
freshly drawn identifier, kind Edit, path "/a", empty old and new
content, the still-held process handle, continuation token "s1", and the
working directory — for every continuation of the stream and every exit
status. -/
theorem claim1_edit_pauses_stream :
    (∀ (cwd : List Char) (uid : Int) (proc : Nat) (st : LoopSt) (buf : List Char)
        (reads more : List Read) (p : PendingInfo),
      runReads cwd uid proc st buf reads = .inr p →
      runReads cwd uid proc st buf (reads ++ more) = .inr p) ∧
    (∀ (more : List Read) (rc : Int) (stderr : List Char),
      run_claude_streaming ("/w".toList) 7 3 (Read.chunk exChunk :: more) rc stderr
        = .pending_approval pendEx) := by
  have hstop : ∀ (cwd : List Char) (uid : Int) (proc : Nat) (reads : List Read)
      (st : LoopSt) (buf : List Char) (more : List Read) (p : PendingInfo),
      runReads cwd uid proc st buf reads = .inr p →
      runReads cwd uid proc st buf (reads ++ more) = .inr p := by
    intro cwd uid proc reads
    induction reads with
    | nil =>
      intro st buf more p h
      simp [runReads] at h
    | cons r rest ih =>
      intro st buf more p h
      cases r with
      | timeout => simp [runReads] at h
      | chunk c =>
        by_cases hc : c = []
        · subst hc
          simp [runReads] at h
        · rw [List.cons_append]
          simp only [runReads, if_neg hc] at h ⊢
          cases hp : processLines cwd uid proc st (splitOnChar '\n' (buf ++ c)).dropLast with
          | inl st2 =>
            rw [hp] at h
            exact ih st2 _ more p h
          | inr q =>
            rw [hp] at h
            exact h
  refine ⟨fun cwd uid proc st buf reads more p h => hstop cwd uid proc reads st buf more p h, ?_⟩
  intro more rc stderr
  have hbase : runReads ("/w".toList) 7 3 {} [] [Read.chunk exChunk] = .inr pendEx := by
    decide
  have h2 := hstop ("/w".toList) 7 3 [Read.chunk exChunk] {} [] more pendEx hbase
  simp only [List.cons_append, List.nil_append] at h2
  unfold run_claude_streaming
  rw [h2]

set_option maxRecDepth 40000 in
/-- Witness for C1: the stop-consuming property applied at the example
stream with one further read appended. -/
theorem claim1_edit_pauses_stream_witness :
    runReads ("/w".toList) 7 3 {} [] ([Read.chunk exChunk] ++ [Read.timeout]) = .inr pendEx :=
  claim1_edit_pauses_stream.1 ("/w".toList) 7 3 {} [] [Read.chunk exChunk] [Read.timeout]
    pendEx (by decide)

end Clyde
